import Mathlib

/-!
Verification development for the EdgeOS configuration reconciler
(lib/ansible/modules/network/edgeos/edgeos_config.py).

The Python functions `config_to_commands`, `diff_config` and
`delete_unmanaged` are embedded as executable Lean definitions over
`String`/`List String`.  Python strings are modelled as Lean strings; the
string helpers used by the source (`str.startswith`, `str.replace`,
`str.splitlines`, `str.split`, `str.rsplit`, `re.sub` with an anchored
pattern) are given explicit definitions below, each mirroring the Python
semantics on the inputs the module handles (newline-separated text).
-/

/-- The apostrophe character removed by the source via
`line.replace("'", '')` (written with an escape). -/
def quoteChar : Char := '\x27'

/-- Python `s.replace("'", '')`: removes every apostrophe character. -/
def stripQuotes (s : String) : String := ⟨s.data.filter (fun c => !(c == quoteChar))⟩

/-- Python `s.startswith(pre)`: the character sequence of `pre` is an
initial segment of that of `s`. -/
def pyStartswith (s pre : String) : Bool := pre.data.isPrefixOf s.data

/-- Splits a character list at every newline character, keeping all
segments (including empty ones and a final segment after the last
newline). -/
def splitSegs : List Char → List Char → List (List Char)
  | [], acc => [acc.reverse]
  | c :: cs, acc => if c == '\n' then acc.reverse :: splitSegs cs [] else splitSegs cs (c :: acc)

/-- Python `s.split('\n')`: all segments between newlines are kept. -/
def pySplitNl (s : String) : List String := (splitSegs s.data []).map (fun cs => ⟨cs⟩)

/-- Python `s.splitlines()` for newline-separated text: like
`s.split('\n')` except that a trailing empty segment (from a trailing
newline, or from the empty string) is dropped. -/
def pySplitlines (s : String) : List String :=
  let parts := splitSegs s.data []
  let parts := if parts.getLast? == some [] then parts.dropLast else parts
  parts.map (fun cs => ⟨cs⟩)

/-- Python `re.sub('^set ', 'delete ', line)`: if `line` begins with
`"set "` the anchored match replaces that leading occurrence with
`"delete "`; otherwise `line` is returned unchanged. -/
def reSubSetDelete (line : String) : String :=
  if pyStartswith line "set " then ⟨"delete ".data ++ line.data.drop 4⟩ else line

/-- Python `line.rsplit(' ', 1)[0]`: everything before the last space
character, or the whole string when it contains no space. -/
def pyRsplitKey (line : String) : String :=
  let r := line.data.reverse
  if r.contains ' ' then ⟨((r.dropWhile (fun c => !(c == ' '))).drop 1).reverse⟩ else line

/-- The classification loop of `diff_config` (source lines 255-262):
each command line is quote-stripped, then routed to
(delete_commands, set_commands, invalid_commands) by the
`startswith('delete ')` / `elif startswith('set ')` / `else` cascade,
preserving the input order inside each bucket. -/
def classify : List String → List String × List String × List String
  | [] => ([], [], [])
  | l :: rest =>
    let line := stripQuotes l
    let r := classify rest
    if pyStartswith line "delete " then (line :: r.1, r.2.1, r.2.2)
    else if pyStartswith line "set " then (r.1, line :: r.2.1, r.2.2)
    else (r.1, r.2.1, line :: r.2.2)

/-- Source line 250: `config = [to_native(c).replace("'", '') for c in config.splitlines()]`. -/
def configLines (config : String) : List String := (pySplitlines config).map stripQuotes

/-- Source lines 264-269: `updates` is seeded with `delete_commands` when
that list is non-empty, then extended with every set command not already
present in the live config lines. -/
def initialUpdates (dels sets cfg : List String) : List String :=
  (if dels.isEmpty then [] else dels) ++ sets.filter (fun line => !(cfg.contains line))

/-- Source lines 271-277 (the restoration pass): when `delete_commands`
is non-empty, for every set command whose delete-equivalent
(`re.sub('^set ', 'delete ', line)`) starts with some delete command,
the set command is appended once per matching delete command. -/
def restorationAdds (dels sets : List String) : List String :=
  if dels.isEmpty then [] else
    sets.flatMap (fun line =>
      (dels.filter (fun dline => pyStartswith (reSubSetDelete line) dline)).map (fun _ => line))

/-- The full `updates` list built by `diff_config` (lines 264-277). -/
def updatesList (commands : List String) (config : String) : List String :=
  initialUpdates (classify commands).1 (classify commands).2.1 (configLines config)
    ++ restorationAdds (classify commands).1 (classify commands).2.1

/-- Source line 280: `unmanaged_config = list(set(config) - set(set_commands))`.
Python's set difference is modelled as deduplication plus a membership
filter; the set iteration order is unspecified in Python, so this model
fixes one canonical order (all claims about the unmanaged list are
order-insensitive). -/
def unmanagedCandidates (commands : List String) (config : String) : List String :=
  (configLines config).dedup.filter
    (fun line => !((classify commands).2.1.contains line))

/-- Source lines 281-287: the `matches` list of the subsumption filter —
live lines whose search key (the line with its last space-delimited
token removed) is a starting segment of some pending update. -/
def unmanagedMatches (commands : List String) (config : String) : List String :=
  (unmanagedCandidates commands config).filter (fun line =>
    (updatesList commands config).any (fun update => pyStartswith update (pyRsplitKey line)))

/-- Source line 289: the final unmanaged list
`[line for line in unmanaged_config if line not in matches]`. -/
def unmanagedList (commands : List String) (config : String) : List String :=
  (unmanagedCandidates commands config).filter
    (fun line => !((unmanagedMatches commands config).contains line))

/-- `diff_config(commands, config)` returning
`(updates, unmanaged_config, invalid_commands)`. -/
def diff_config (commands : List String) (config : String) :
    List String × List String × List String :=
  (updatesList commands config, unmanagedList commands config, (classify commands).2.2)

/-- `delete_unmanaged(updates, unmanaged)` (source lines 295-306): each
unmanaged line has its leading `set ` substituted by `delete ` and is
appended to the updates list.  The Python function mutates `updates` in
place; the model returns the extended list. -/
def delete_unmanaged (updates unmanaged : List String) : List String :=
  updates ++ unmanaged.map reSubSetDelete

/-- Inner loop of the de-duplication pass of `config_to_commands`
(source lines 203-208): delete the first already-collected entry that is
a string prefix of `item` (Python `del commands[index]` after the first
`item.startswith(entry)` hit, then `break`). -/
def removeFirstMatch (item : String) : List String → List String
  | [] => []
  | entry :: rest => if pyStartswith item entry then rest else entry :: removeFirstMatch item rest

/-- The de-duplication loop of `config_to_commands` (source lines
201-209): each item removes the first earlier entry it extends, then is
appended. -/
def collapse (candidate : List String) : List String :=
  candidate.foldl (fun commands item => removeFirstMatch item commands ++ [item]) []

/-- Number of leading space characters of a line. -/
def leadingSpaces : List Char → Nat
  | [] => 0
  | c :: cs => if c == ' ' then leadingSpaces cs + 1 else 0

/-- Helper for `networkConfigItemLines`: walks the lines keeping a stack
of enclosing block headers; each kept line yields the space-joined path
from the root to that line. -/
def itemsAux : List String → List String → List String
  | [], _ => []
  | line :: rest, stack =>
    let text := line.trim
    if text == "" || text == "\x7d" then itemsAux rest stack
    else
      let stack := stack.take (leadingSpaces line.data / 4)
      let path := String.intercalate " " (stack ++ [text])
      path :: itemsAux rest (stack ++ [text])

/-- Modelled from the spec: `NetworkConfig(indent=4, contents=config).items`
is not part of the sources under verification (it lives in
`ansible.module_utils.network.common.config`).  Per the spec the
bracket-indented input (indent unit 4 columns) is parsed into a tree of
path segments and every node yields its full space-joined path (block
headers keep their trailing open-brace marker, stripped later). -/
def networkConfigItemLines (config : String) : List String :=
  itemsAux (pySplitNl config) []

/-- Python `cmd.replace(' {', '')`: removes every space-open-brace pair,
scanning left to right (the brace is written with an escape). -/
def removeBraceMarks : List Char → List Char
  | [] => []
  | [c] => [c]
  | c :: c2 :: rest =>
    if c == ' ' && c2 == '\x7b' then removeBraceMarks rest
    else c :: removeBraceMarks (c2 :: rest)

/-- `config_to_commands(config)` (source lines 179-214).  The flat
branch is taken when the text starts with `set` or `delete`; there the
source round-trips the text through `NetworkConfig` and splits on
newline — modelled from the spec ("split on line breaks and return
as-is") as `pySplitNl`.  Otherwise the bracketed items are collapsed and
prefixed with `set `. -/
def config_to_commands (config : String) : List String :=
  let set_format := pyStartswith config "set" || pyStartswith config "delete"
  if set_format then pySplitNl config
  else (collapse (networkConfigItemLines config)).map
    (fun cmd => "set " ++ String.mk (removeBraceMarks cmd.data))

/-- The delete-before-set ordering property of an updates list: every
entry starting with `delete ` is positioned before every entry starting
with `set `. -/
def deleteBeforeSet (updates : List String) : Prop :=
  ∀ (i j : Fin updates.length),
    pyStartswith (updates.get i) "delete " = true →
    pyStartswith (updates.get j) "set " = true →
    (i : Nat) < (j : Nat)

instance decidableDeleteBeforeSet (updates : List String) :
    Decidable (deleteBeforeSet updates) := by
  unfold deleteBeforeSet
  infer_instance

/-! ### Helper lemmas about the string primitives -/

lemma isPrefixOf_append_self (l t : List Char) : l.isPrefixOf (l ++ t) = true := by
  induction l with
  | nil => simp [List.isPrefixOf]
  | cons a as ih => simp [List.isPrefixOf, ih]

lemma eq_append_of_isPrefixOf {l m : List Char} (h : l.isPrefixOf m = true) :
    ∃ t, m = l ++ t := by
  induction l generalizing m with
  | nil => exact ⟨m, rfl⟩
  | cons a as ih =>
    cases m with
    | nil => simp [List.isPrefixOf] at h
    | cons b bs =>
      simp only [List.isPrefixOf, Bool.and_eq_true, beq_iff_eq] at h
      obtain ⟨t, ht⟩ := ih h.2
      exact ⟨t, by rw [h.1, ht]; rfl⟩

lemma pyStartswith_iff {s p : String} :
    pyStartswith s p = true ↔ ∃ t, s.data = p.data ++ t := by
  constructor
  · exact fun h => eq_append_of_isPrefixOf h
  · rintro ⟨t, ht⟩
    unfold pyStartswith
    rw [ht]
    exact isPrefixOf_append_self _ _

lemma not_delete_of_set {l : String} (h : pyStartswith l "set " = true) :
    pyStartswith l "delete " = false := by
  obtain ⟨t, ht⟩ := pyStartswith_iff.1 h
  cases hd : pyStartswith l "delete " with
  | false => rfl
  | true =>
    obtain ⟨u, hu⟩ := pyStartswith_iff.1 hd
    rw [ht] at hu
    have h1 : ('s' :: 'e' :: 't' :: ' ' :: ([] : List Char)) ++ t
        = ('d' :: 'e' :: 'l' :: 'e' :: 't' :: 'e' :: ' ' :: ([] : List Char)) ++ u := hu
    simp at h1

lemma not_set_of_delete {l : String} (h : pyStartswith l "delete " = true) :
    pyStartswith l "set " = false := by
  cases hs : pyStartswith l "set " with
  | false => rfl
  | true => rw [not_delete_of_set hs] at h; exact absurd h (by decide)

lemma stripQuotes_data (s : String) :
    (stripQuotes s).data = s.data.filter (fun c => !(c == quoteChar)) := rfl

lemma stripQuotes_delete {l : String} (h : pyStartswith l "delete " = true) :
    pyStartswith (stripQuotes l) "delete " = true := by
  obtain ⟨t, ht⟩ := pyStartswith_iff.1 h
  apply pyStartswith_iff.2
  refine ⟨t.filter (fun c => !(c == quoteChar)), ?_⟩
  rw [stripQuotes_data, ht, List.filter_append]
  congr 1

lemma stripQuotes_set {l : String} (h : pyStartswith l "set " = true) :
    pyStartswith (stripQuotes l) "set " = true := by
  obtain ⟨t, ht⟩ := pyStartswith_iff.1 h
  apply pyStartswith_iff.2
  refine ⟨t.filter (fun c => !(c == quoteChar)), ?_⟩
  rw [stripQuotes_data, ht, List.filter_append]
  congr 1

lemma contains_eq_true_iff {l : List String} {a : String} :
    l.contains a = true ↔ a ∈ l := by
  induction l with
  | nil => simp
  | cons x xs ih => simp [List.contains_cons, ih]

/-! ### Characterization of the classification pass -/

lemma classify_fst (commands : List String) :
    (classify commands).1
      = (commands.map stripQuotes).filter (fun l => pyStartswith l "delete ") := by
  induction commands with
  | nil => rfl
  | cons l rest ih =>
    simp only [classify, List.map_cons, List.filter_cons]
    cases h : pyStartswith (stripQuotes l) "delete " with
    | true => simp [h, ih]
    | false =>
      cases h2 : pyStartswith (stripQuotes l) "set " with
      | true => simp [h, h2, ih]
      | false => simp [h, h2, ih]

lemma classify_snd (commands : List String) :
    (classify commands).2.1
      = (commands.map stripQuotes).filter
          (fun l => !pyStartswith l "delete " && pyStartswith l "set ") := by
  induction commands with
  | nil => rfl
  | cons l rest ih =>
    simp only [classify, List.map_cons, List.filter_cons]
    cases h : pyStartswith (stripQuotes l) "delete " with
    | true => simp [h, ih]
    | false =>
      cases h2 : pyStartswith (stripQuotes l) "set " with
      | true => simp [h, h2, ih]
      | false => simp [h, h2, ih]

lemma classify_thd (commands : List String) :
    (classify commands).2.2
      = (commands.map stripQuotes).filter
          (fun l => !pyStartswith l "delete " && !pyStartswith l "set ") := by
  induction commands with
  | nil => rfl
  | cons l rest ih =>
    simp only [classify, List.map_cons, List.filter_cons]
    cases h : pyStartswith (stripQuotes l) "delete " with
    | true => simp [h, ih]
    | false =>
      cases h2 : pyStartswith (stripQuotes l) "set " with
      | true => simp [h, h2, ih]
      | false => simp [h, h2, ih]

lemma mem_classify_dels {commands : List String} {l : String}
    (h : l ∈ (classify commands).1) : pyStartswith l "delete " = true := by
  rw [classify_fst] at h
  exact (List.mem_filter.1 h).2

lemma mem_classify_sets {commands : List String} {l : String}
    (h : l ∈ (classify commands).2.1) : pyStartswith l "set " = true := by
  rw [classify_snd] at h
  have h2 := (List.mem_filter.1 h).2
  simp only [Bool.and_eq_true] at h2
  exact h2.2

lemma classify_length (commands : List String) :
    (classify commands).1.length + (classify commands).2.1.length
      + (classify commands).2.2.length = commands.length := by
  induction commands with
  | nil => rfl
  | cons l rest ih =>
    cases h : pyStartswith (stripQuotes l) "delete " with
    | true => simp [classify, h]; omega
    | false =>
      cases h2 : pyStartswith (stripQuotes l) "set " with
      | true => simp [classify, h, h2]; omega
      | false => simp [classify, h, h2]; omega

/-! ### Structure of the updates list -/

lemma initialUpdates_eq (dels sets cfg : List String) :
    initialUpdates dels sets cfg
      = dels ++ sets.filter (fun line => !(cfg.contains line)) := by
  cases dels <;> simp [initialUpdates]

lemma updatesList_eq (commands : List String) (config : String) :
    updatesList commands config
      = (classify commands).1
        ++ ((classify commands).2.1.filter
              (fun line => !((configLines config).contains line))
            ++ restorationAdds (classify commands).1 (classify commands).2.1) := by
  unfold updatesList
  rw [initialUpdates_eq, List.append_assoc]

lemma mem_sets_of_mem_restorationAdds {dels sets : List String} {l : String}
    (h : l ∈ restorationAdds dels sets) : l ∈ sets := by
  unfold restorationAdds at h
  split at h
  · simp at h
  · obtain ⟨line, hline, hmem⟩ := List.mem_flatMap.1 h
    obtain ⟨_, _, rfl⟩ := List.mem_map.1 hmem
    exact hline

lemma updates_split (commands : List String) (config : String) :
    ∃ rest, updatesList commands config = (classify commands).1 ++ rest
      ∧ ∀ l ∈ rest, l ∈ (classify commands).2.1 := by
  refine ⟨_, updatesList_eq commands config, ?_⟩
  intro l hl
  rcases List.mem_append.1 hl with h | h
  · exact (List.mem_filter.1 h).1
  · exact mem_sets_of_mem_restorationAdds h

lemma deleteBeforeSet_of_split (ds ss : List String)
    (hd : ∀ l ∈ ds, pyStartswith l "delete " = true)
    (hs : ∀ l ∈ ss, pyStartswith l "set " = true) :
    deleteBeforeSet (ds ++ ss) := by
  intro i j hidel hjset
  simp only [List.get_eq_getElem] at hidel hjset
  have hi : (i : Nat) < ds.length := by
    by_contra hge
    push_neg at hge
    have hlt : (i : Nat) - ds.length < ss.length := by
      have := i.isLt
      simp only [List.length_append] at this
      omega
    rw [List.getElem_append_right hge] at hidel
    have hset := hs _ (List.getElem_mem hlt)
    rw [not_delete_of_set hset] at hidel
    exact absurd hidel (by decide)
  have hj : ds.length ≤ (j : Nat) := by
    by_contra hlt
    push_neg at hlt
    rw [List.getElem_append_left hlt] at hjset
    have hdel := hd _ (List.getElem_mem hlt)
    rw [not_set_of_delete hdel] at hjset
    exact absurd hjset (by decide)
  omega

lemma restorationAdds_of_ne_nil {dels sets : List String} (h : dels ≠ []) :
    restorationAdds dels sets
      = sets.flatMap (fun line =>
          (dels.filter (fun dline => pyStartswith (reSubSetDelete line) dline)).map
            (fun _ => line)) := by
  unfold restorationAdds
  cases dels with
  | nil => exact absurd rfl h
  | cons x xs => simp [List.isEmpty]

/-! ### Claim theorems -/

/-- Claim C1: idempotence of reconciliation — for a live configuration
whose lines are all set statements, diffing those very lines against the
live text yields no updates and no invalid commands. -/
theorem diff_config_idempotent (L : String)
    (h : ∀ line ∈ pySplitlines L, pyStartswith line "set " = true) :
    (diff_config (pySplitlines L) L).1 = [] ∧ (diff_config (pySplitlines L) L).2.2 = [] := by
  have hstrip : ∀ line ∈ (pySplitlines L).map stripQuotes, pyStartswith line "set " = true := by
    intro line hl
    obtain ⟨x, hx, rfl⟩ := List.mem_map.1 hl
    exact stripQuotes_set (h x hx)
  have hdel : (classify (pySplitlines L)).1 = [] := by
    rw [classify_fst]
    refine List.filter_eq_nil_iff.2 ?_
    intro a ha
    simp [not_delete_of_set (hstrip a ha)]
  constructor
  · show updatesList (pySplitlines L) L = []
    rw [updatesList_eq, hdel]
    have hsets : (classify (pySplitlines L)).2.1.filter
        (fun line => !((configLines L).contains line)) = [] := by
      refine List.filter_eq_nil_iff.2 ?_
      intro a ha
      have hmem : a ∈ configLines L := by
        rw [classify_snd] at ha
        exact (List.mem_filter.1 ha).1
      rw [contains_eq_true_iff.2 hmem]
      decide
    rw [hsets]
    simp [restorationAdds]
  · show (classify (pySplitlines L)).2.2 = []
    rw [classify_thd]
    refine List.filter_eq_nil_iff.2 ?_
    intro a ha
    simp [hstrip a ha]

/-- Witness for C1 at the live configuration "set a\nset b". -/
theorem diff_config_idempotent_witness :
    (diff_config (pySplitlines "set a\nset b") "set a\nset b").1 = []
    ∧ (diff_config (pySplitlines "set a\nset b") "set a\nset b").2.2 = [] :=
  diff_config_idempotent "set a\nset b" (by decide)

/-- Claim C2 counterexample: with candidate = ["delete service dhcp-server"]
and live text "set service dhcp-server shared-network-name LAN", all the
conditions of the claim hold — the live line matches no candidate set
command (set_commands is empty) and "delete service dhcp-server" is in
updates — yet the live line DOES appear in the unmanaged list, because a
delete update never starts with the set-prefixed search key. -/
theorem unmanaged_subsumption_cex :
    "delete service dhcp-server"
        ∈ (diff_config ["delete service dhcp-server"]
            "set service dhcp-server shared-network-name LAN").1
    ∧ (classify ["delete service dhcp-server"]).2.1 = []
    ∧ "set service dhcp-server shared-network-name LAN"
        ∈ (diff_config ["delete service dhcp-server"]
            "set service dhcp-server shared-network-name LAN").2.1 := by
  decide

/-- Claim C2 (amended): a live line is excluded from the unmanaged list
exactly when some entry already in updates starts with the line's search
key (the line minus its last space-delimited token); this theorem proves
the exclusion direction for every such covered line. -/
theorem unmanaged_excludes_pending_update (commands : List String) (config : String)
    (line : String)
    (h : ∃ u ∈ (diff_config commands config).1, pyStartswith u (pyRsplitKey line) = true) :
    line ∉ (diff_config commands config).2.1 := by
  intro hmem
  obtain ⟨u, hu, hupre⟩ := h
  have hmem' : line ∈ unmanagedList commands config := hmem
  have hcand : line ∈ unmanagedCandidates commands config := (List.mem_filter.1 hmem').1
  have hnot := (List.mem_filter.1 hmem').2
  have hany : (updatesList commands config).any
      (fun update => pyStartswith update (pyRsplitKey line)) = true :=
    List.any_eq_true.2 ⟨u, hu, hupre⟩
  have hm : line ∈ unmanagedMatches commands config :=
    List.mem_filter.2 ⟨hcand, hany⟩
  rw [contains_eq_true_iff.2 hm] at hnot
  exact absurd hnot (by decide)

/-- Witness for the amended C2: the pending update "set b c" starts with
the search key "set b" of live line "set b d", so that line is excluded
from unmanaged. -/
theorem unmanaged_excludes_pending_update_witness :
    "set b d" ∉ (diff_config ["set b c"] "set b d").2.1 :=
  unmanaged_excludes_pending_update ["set b c"] "set b d" "set b d"
    ⟨"set b c", by decide, by decide⟩

/-- Claim C3 counterexample: for candidate = ["delete a b", "set a"] and
live "set a", the delete-equivalent "delete a" of the set command IS a
string prefix of the delete command "delete a b" (the claim's
antecedent), yet "set a" is not appended to updates — the code tests the
converse direction search.startswith(dline). -/
theorem restoration_direction_cex :
    pyStartswith "delete a b" (reSubSetDelete "set a") = true
    ∧ "delete a b" ∈ (classify ["delete a b", "set a"]).1
    ∧ "set a" ∈ (classify ["delete a b", "set a"]).2.1
    ∧ "set a" ∉ (diff_config ["delete a b", "set a"] "set a").1 := by
  decide

/-- Claim C3 (amended): the restoration pass appends a candidate set
command to updates whenever some delete command of the candidate is a
prefix of the set command's delete-equivalent (the substitution of its
leading "set " by "delete "), even if the set command was filtered out
as already present in the live config. -/
theorem restoration_appends_nested_set (commands : List String) (config : String)
    (line dline : String)
    (hset : line ∈ (classify commands).2.1)
    (hdel : dline ∈ (classify commands).1)
    (hpre : pyStartswith (reSubSetDelete line) dline = true) :
    line ∈ (diff_config commands config).1 := by
  show line ∈ updatesList commands config
  rw [updatesList_eq]
  refine List.mem_append.2 (Or.inr (List.mem_append.2 (Or.inr ?_)))
  rw [restorationAdds_of_ne_nil (List.ne_nil_of_mem hdel)]
  refine List.mem_flatMap.2 ⟨line, hset, ?_⟩
  exact List.mem_map.2 ⟨dline, List.mem_filter.2 ⟨hdel, hpre⟩, rfl⟩

/-- Witness for the amended C3: "delete x" is a prefix of "delete x y",
so "set x y" is re-appended although it is present in the live config. -/
theorem restoration_appends_nested_set_witness :
    "set x y" ∈ (diff_config ["delete x", "set x y"] "set x y").1 :=
  restoration_appends_nested_set ["delete x", "set x y"] "set x y" "set x y" "delete x"
    (by decide) (by decide) (by decide)

/-- Claim C4: restoration after delete, concrete instance — both the
delete and the set statement are in the returned updates. -/
theorem restoration_after_delete_instance :
    "delete interfaces eth0"
        ∈ (diff_config ["delete interfaces eth0", "set interfaces eth0 address 1.2.3.4"]
            "set interfaces eth0 address 1.2.3.4").1
    ∧ "set interfaces eth0 address 1.2.3.4"
        ∈ (diff_config ["delete interfaces eth0", "set interfaces eth0 address 1.2.3.4"]
            "set interfaces eth0 address 1.2.3.4").1 := by
  decide

/-- Claim C5 counterexample: after the unmanaged-promotion step the
delete-before-set invariant fails — delete_unmanaged appends the
promoted delete "delete c d" AFTER the set statement "set a b". -/
theorem delete_before_set_promotion_cex :
    delete_unmanaged (diff_config ["set a b"] "set c d").1
        (diff_config ["set a b"] "set c d").2.1 = ["set a b", "delete c d"]
    ∧ ¬ deleteBeforeSet
        (delete_unmanaged (diff_config ["set a b"] "set c d").1
          (diff_config ["set a b"] "set c d").2.1) := by
  decide

/-- Claim C5 (amended): the delete-before-set invariant holds for the
updates list returned by diff_config (deletes are seeded first and all
later entries are set commands); the promotion step delete_unmanaged
appends its delete commands at the end and can therefore place a delete
after a set statement. -/
theorem diff_config_delete_before_set (commands : List String) (config : String) :
    deleteBeforeSet (diff_config commands config).1 := by
  show deleteBeforeSet (updatesList commands config)
  obtain ⟨rest, heq, hmem⟩ := updates_split commands config
  rw [heq]
  exact deleteBeforeSet_of_split _ _ (fun l hl => mem_classify_dels hl)
    (fun l hl => mem_classify_sets (hmem l hl))

/-- Witness for the amended C5 at a concrete mixed candidate. -/
theorem diff_config_delete_before_set_witness :
    deleteBeforeSet (diff_config ["delete a", "set b c"] "").1 :=
  diff_config_delete_before_set ["delete a", "set b c"] ""

/-- Claim C6 counterexample: the two-line set-format input is returned
unchanged by config_to_commands (the flat branch performs no prefix
collapse), so the result is not ["set a"]. -/
theorem prefix_collapse_cex :
    config_to_commands "set a b\nset a" ≠ ["set a"] := by decide

/-- Claim C6 (amended): set-format input is split on newlines and
returned as-is by config_to_commands; the collapse loop runs only for
bracketed input, and it discards an earlier collected entry exactly when
that entry is a string prefix of the newly collected line (the later,
more specific line is retained); an earlier longer line is never
discarded by a later line that is a prefix of it. -/
theorem config_to_commands_flat_and_collapse :
    config_to_commands "set a b\nset a" = ["set a b", "set a"]
    ∧ config_to_commands "set a\nset a b" = ["set a", "set a b"]
    ∧ collapse ["a", "a b"] = ["a b"]
    ∧ collapse ["a b", "a"] = ["a b", "a"] := by decide

/-- Claim C7: for an empty candidate, diff_config returns empty updates
and invalid lists, and every quote-stripped live line appears in the
unmanaged list. -/
theorem diff_config_empty_candidate (config : String) :
    (diff_config [] config).1 = [] ∧ (diff_config [] config).2.2 = []
    ∧ ∀ line ∈ pySplitlines config, stripQuotes line ∈ (diff_config [] config).2.1 := by
  have hupd : updatesList [] config = [] := rfl
  have hmatch : unmanagedMatches [] config = [] := by
    refine List.filter_eq_nil_iff.2 ?_
    intro a _
    rw [hupd]
    simp
  refine ⟨hupd, rfl, ?_⟩
  intro line hline
  have h1 : stripQuotes line ∈ configLines config := List.mem_map_of_mem _ hline
  have h2 : stripQuotes line ∈ (configLines config).dedup := List.mem_dedup.2 h1
  have h3 : stripQuotes line ∈ unmanagedCandidates [] config := by
    refine List.mem_filter.2 ⟨h2, ?_⟩
    rfl
  show stripQuotes line ∈ unmanagedList [] config
  refine List.mem_filter.2 ⟨h3, ?_⟩
  rw [hmatch]
  rfl

/-- Witness for C7 at the live configuration "set a\nset b". -/
theorem diff_config_empty_candidate_witness :
    (diff_config [] "set a\nset b").1 = []
    ∧ "set a" ∈ (diff_config [] "set a\nset b").2.1 :=
  ⟨(diff_config_empty_candidate "set a\nset b").1,
    (diff_config_empty_candidate "set a\nset b").2.2 "set a" (by decide)⟩

/-- Claim C8: every candidate line starting with "delete " appears
(quote-stripped) in the updates list; the delete commands form the
initial segment of updates in their original relative order; a candidate
with any delete command yields a non-empty updates list. -/
theorem delete_commands_in_updates (commands : List String) (config : String) :
    (∀ l ∈ commands, pyStartswith l "delete " = true →
        stripQuotes l ∈ (diff_config commands config).1)
    ∧ (∃ rest, (diff_config commands config).1
        = (commands.map stripQuotes).filter (fun l => pyStartswith l "delete ") ++ rest)
    ∧ ((∃ l ∈ commands, pyStartswith l "delete " = true) →
        (diff_config commands config).1 ≠ []) := by
  have hsplit : (diff_config commands config).1
      = (commands.map stripQuotes).filter (fun l => pyStartswith l "delete ")
        ++ ((classify commands).2.1.filter
              (fun line => !((configLines config).contains line))
            ++ restorationAdds (classify commands).1 (classify commands).2.1) := by
    show updatesList commands config = _
    rw [updatesList_eq]
    exact congrArg (· ++ _) (classify_fst commands)
  have hmem : ∀ l ∈ commands, pyStartswith l "delete " = true →
      stripQuotes l ∈ (diff_config commands config).1 := by
    intro l hl hdel
    rw [hsplit]
    refine List.mem_append.2 (Or.inl ?_)
    exact List.mem_filter.2 ⟨List.mem_map_of_mem _ hl, stripQuotes_delete hdel⟩
  refine ⟨hmem, ⟨_, hsplit⟩, ?_⟩
  rintro ⟨l, hl, hdel⟩
  exact List.ne_nil_of_mem (hmem l hl hdel)

/-- Witness for C8 at candidate = ["delete z"] and empty live text. -/
theorem delete_commands_in_updates_witness :
    "delete z" ∈ (diff_config ["delete z"] "").1
    ∧ (diff_config ["delete z"] "").1 ≠ [] :=
  ⟨(delete_commands_in_updates ["delete z"] "").1 "delete z" (by decide) (by decide),
    (delete_commands_in_updates ["delete z"] "").2.2 ⟨"delete z", by decide, by decide⟩⟩

/-- Claim C9: the unmanaged list never contains duplicates — the live
lines are deduplicated by the set difference before filtering. -/
theorem unmanaged_nodup (commands : List String) (config : String) :
    (diff_config commands config).2.1.Nodup := by
  show (unmanagedList commands config).Nodup
  exact ((List.nodup_dedup (configLines config)).filter _).filter _

/-- Claim C10: classification routes each (quote-stripped) candidate
line to exactly one of the delete/set/invalid buckets — delete only with
the "delete " prefix (trailing space included), set only with the
"set " prefix, invalid otherwise; the bucket sizes add up to the number
of candidate lines, and the bare lines "set" and "delete" land in the
invalid list of diff_config. -/
theorem classify_partition (commands : List String) :
    (classify commands).1
        = (commands.map stripQuotes).filter (fun l => pyStartswith l "delete ")
    ∧ (classify commands).2.1
        = (commands.map stripQuotes).filter
            (fun l => !pyStartswith l "delete " && pyStartswith l "set ")
    ∧ (classify commands).2.2
        = (commands.map stripQuotes).filter
            (fun l => !pyStartswith l "delete " && !pyStartswith l "set ")
    ∧ (classify commands).1.length + (classify commands).2.1.length
        + (classify commands).2.2.length = commands.length
    ∧ (diff_config ["set", "delete"] "").2.2 = ["set", "delete"] :=
  ⟨classify_fst commands, classify_snd commands, classify_thd commands,
    classify_length commands, by decide⟩
